import Mathlib

/-!
Verification of the RFM scoring pipeline of rfm_analysis_app.py.

The app reads a transaction table with columns CustomerID, PurchaseDate,
OrderID, TransactionAmount, then derives per-row columns: Recency (days
between the evaluation instant and the purchase date), Frequency and
MonetaryValue (group-by-customer aggregates broadcast back via two left
merges), three 1..5 scores obtained by quantile binning with an
equal-width fallback, their sum RFM_Score, a tertile Value Segment, and a
fixed-band customer segment label.

Dates are modelled as integer day numbers, monetary amounts as rationals.
OrderID is modelled as an optional string because the pandas count
aggregation skips missing values. Pandas qcut and cut are modelled exactly
over the rationals: linear-interpolation quantiles, right-closed
buckets whose first edge is lowered so the minimum is included, and the
duplicate-bin-edge error of qcut.
-/

set_option maxRecDepth 2000

namespace RFM

/-- Input row of the uploaded table. -/
structure Row where
  customerID : String
  purchaseDate : Int
  orderID : Option String
  transactionAmount : Rat
deriving DecidableEq

instance : Inhabited Row := ⟨⟨"", 0, none, 0⟩⟩

/-- Output row: the input row augmented with all derived columns. -/
structure OutRow where
  customerID : String
  purchaseDate : Int
  orderID : Option String
  transactionAmount : Rat
  recency : Int
  frequency : Nat
  monetary : Rat
  recencyScore : Nat
  frequencyScore : Nat
  monetaryScore : Nat
  rfmScore : Nat
  valueSegment : String
  segment : String
deriving DecidableEq

instance : Inhabited OutRow := ⟨⟨"", 0, none, 0, 0, 0, 0, 0, 0, 0, 0, "", ""⟩⟩

/-- Ascending sort of a rational series, as numpy sorts before taking
quantiles. -/
def sortQ (s : List Rat) : List Rat := List.insertionSort (· ≤ ·) s

/-- Linear-interpolation quantile of a sorted series at probability i / q,
as pandas Series.quantile computes it: with h = (i / q) * (n - 1),
interpolate between the elements at positions floor h and floor h + 1. -/
def quantileAt (st : List Rat) (i q : Nat) : Rat :=
  let n := st.length
  let k := (i * (n - 1)) / q
  let h : Rat := ((i * (n - 1) : Nat) : Rat) / (q : Rat)
  let lo := st.getD k 0
  let hi := st.getD (k + 1) lo
  lo + (h - (k : Rat)) * (hi - lo)

/-- Bin edges used by pandas qcut: quantiles at probabilities 0, 1/q, ..., 1. -/
def qcutEdges (s : List Rat) (q : Nat) : List Rat :=
  (List.range (q + 1)).map (fun i => quantileAt (sortQ s) i q)

/-- Position of a value among right-inclusive buckets delimited by the given
upper edges: the first index whose edge is at least the value. -/
def bucketAux : List Rat → Rat → Nat
  | [], _ => 0
  | e :: rest, v => if v ≤ e then 0 else bucketAux rest v + 1

/-- Pandas qcut: assign each value the label of its quantile bucket; raise
when the series is empty or the computed bin edges are not unique. -/
def qcutList {α : Type} (s : List Rat) (q : Nat) (labels : List α) (d : α) :
    Except String (List α) :=
  if s.isEmpty then Except.error "Cannot cut empty array"
  else
    let edges := qcutEdges s q
    if edges.Nodup then
      Except.ok (s.map (fun v => labels.getD (bucketAux edges.tail v) d))
    else Except.error "Bin edges must be unique"

/-- Largest element of a rational series (0 for the empty series). -/
def listMax : List Rat → Rat
  | [] => 0
  | [x] => x
  | x :: xs => max x (listMax xs)

/-- Smallest element of a rational series (0 for the empty series). -/
def listMin : List Rat → Rat
  | [] => 0
  | [x] => x
  | x :: xs => min x (listMin xs)

/-- Bin edges used by pandas cut with an integer bin count: n equal-width
intervals over the value range; a constant series has its range widened by
0.1 percent on both sides, otherwise the first edge is lowered by 0.1
percent of the range so that the minimum falls inside the first bucket. -/
def cutEdges (s : List Rat) (n : Nat) : List Rat :=
  let mn := listMin s
  let mx := listMax s
  if mn = mx then
    let lo := mn - (if mn = 0 then 1 / 1000 else |mn| / 1000)
    let hi := mx + (if mx = 0 then 1 / 1000 else |mx| / 1000)
    (List.range (n + 1)).map (fun (i : Nat) => lo + ((hi - lo) * (i : Rat)) / (n : Rat))
  else
    (List.range (n + 1)).map (fun (i : Nat) =>
      mn + ((mx - mn) * (i : Rat)) / (n : Rat) -
        (if i = 0 then (mx - mn) / 1000 else 0))

/-- Pandas cut with an integer bin count: assign each value the label of its
equal-width bucket; raise when the series is empty or the bin count is 0. -/
def cutList {α : Type} (s : List Rat) (n : Nat) (labels : List α) (d : α) :
    Except String (List α) :=
  if s.isEmpty || n == 0 then Except.error "bins should be a positive integer"
  else Except.ok (s.map (fun v => labels.getD (bucketAux (cutEdges s n).tail v) d))

/-- Body of create_rfm_score before the exception handler: with
n_quantiles = min 5 (number of distinct values), either qcut into 5
quantile buckets or fall back to cut into n_quantiles equal-width buckets
labelled with the first n_quantiles labels. -/
def scoreExcept (series : List Rat) (score_labels : List Nat) :
    Except String (List Nat) :=
  let n_quantiles := min 5 series.dedup.length
  if n_quantiles < 5 then
    cutList series n_quantiles (score_labels.take n_quantiles) 0
  else
    qcutList series 5 (score_labels.take 5) 0

/-- True when an Except value is an error. -/
def isErr {ε α : Type} : Except ε α → Bool
  | Except.error _ => true
  | Except.ok _ => false

/-- create_rfm_score of the source: the binning result, or an all-zero
column of the same length when the binning raised. -/
def create_rfm_score (series : List Rat) (score_labels : List Nat) : List Nat :=
  match scoreExcept series score_labels with
  | Except.ok r => r
  | Except.error _ => List.replicate series.length 0

/-- Count aggregated for Frequency: the pandas count of the OrderID column
within the group of one customer, which skips missing values. -/
def frequencyCount (t : List Row) (c : String) : Nat :=
  (t.filter (fun r => r.customerID == c && r.orderID.isSome)).length

/-- Sum aggregated for MonetaryValue: the sum of TransactionAmount within
the group of one customer. -/
def monetarySum (t : List Row) (c : String) : Rat :=
  ((t.filter (fun r => r.customerID == c)).map Row.transactionAmount).sum

/-- Group keys of groupby CustomerID: the distinct customer ids. -/
def customerKeys (t : List Row) : List String :=
  (t.map Row.customerID).dedup

/-- frequency_data of the source: per-customer count of OrderID. -/
def frequency_data (t : List Row) : List (String × Nat) :=
  (customerKeys t).map (fun c => (c, frequencyCount t c))

/-- monetary_data of the source: per-customer sum of TransactionAmount. -/
def monetary_data (t : List Row) : List (String × Rat) :=
  (customerKeys t).map (fun c => (c, monetarySum t c))

/-- Left merge on a string key, as pandas merge with how left: each left row
produces one output row per matching right row, or a single row with a
missing value when nothing matches; left order is preserved. -/
def leftMerge {α β : Type} (left : List α) (key : α → String)
    (right : List (String × β)) : List (α × Option β) :=
  match left with
  | [] => []
  | l :: rest =>
    (match right.filter (fun p => p.1 == key l) with
     | [] => [(l, none)]
     | ms => ms.map (fun p => (l, some p.2))) ++ leftMerge rest key right

/-- The two left merges of the source: the table with the Frequency and
MonetaryValue columns attached. -/
def mergedTable (t : List Row) : List ((Row × Option Nat) × Option Rat) :=
  leftMerge (leftMerge t (fun r => r.customerID) (frequency_data t))
    (fun p => p.1.customerID) (monetary_data t)

/-- Recency column: days between the evaluation instant and the purchase
date, per merged row. -/
def recencyColumn (now : Int) (t : List Row) : List Rat :=
  (mergedTable t).map (fun m => ((now - m.1.1.purchaseDate : Int) : Rat))

/-- Frequency column after the merge, as a rational series for scoring. -/
def frequencyColumn (t : List Row) : List Rat :=
  (mergedTable t).map (fun m => ((m.1.2.getD 0 : Nat) : Rat))

/-- MonetaryValue column after the merge, as a rational series for scoring. -/
def monetaryColumn (t : List Row) : List Rat :=
  (mergedTable t).map (fun m => m.2.getD 0)

/-- RecencyScore column: create_rfm_score with descending labels. -/
def recencyScores (now : Int) (t : List Row) : List Nat :=
  create_rfm_score (recencyColumn now t) [5, 4, 3, 2, 1]

/-- FrequencyScore column: create_rfm_score with ascending labels. -/
def frequencyScores (t : List Row) : List Nat :=
  create_rfm_score (frequencyColumn t) [1, 2, 3, 4, 5]

/-- MonetaryScore column: create_rfm_score with ascending labels. -/
def monetaryScores (t : List Row) : List Nat :=
  create_rfm_score (monetaryColumn t) [1, 2, 3, 4, 5]

/-- RFM_Score column: pointwise sum of the three score columns. -/
def rfmScoreColumn (now : Int) (t : List Row) : List Nat :=
  (List.range (mergedTable t).length).map (fun i =>
    (recencyScores now t).getD i 0 + (frequencyScores t).getD i 0 +
      (monetaryScores t).getD i 0)

/-- Value Segment column: qcut of RFM_Score into 3 tertile buckets. This
call is outside any exception handler in the source. -/
def valueSegments (now : Int) (t : List Row) : Except String (List String) :=
  qcutList ((rfmScoreColumn now t).map (fun (k : Nat) => (k : Rat))) 3
    ["Low-Value", "Mid-Value", "High-Value"] ""

/-- Sequential threshold assignments of RFM Customer Segments, in source
order: each matching assignment overwrites the current value, starting
from the empty string. -/
def assignSegments (s : Nat) : String :=
  let v0 := ""
  let v1 := if 9 ≤ s then "Champions" else v0
  let v2 := if 6 ≤ s ∧ s < 9 then "Potential Loyalists" else v1
  let v3 := if 5 ≤ s ∧ s < 6 then "At Risk Customers" else v2
  let v4 := if 4 ≤ s ∧ s < 5 then "Can\x27t Lose" else v3
  let v5 := if s < 4 then "Lost" else v4
  v5

/-- Band table of the specification: first match wins over the fixed
thresholds 9, 6, 5, 4. -/
def segmentBands (s : Nat) : String :=
  if 9 ≤ s then "Champions"
  else if 6 ≤ s then "Potential Loyalists"
  else if 5 ≤ s then "At Risk Customers"
  else if 4 ≤ s then "Can\x27t Lose"
  else "Lost"

/-- Ascending rank of the three Value Segment labels. -/
def segRank (s : String) : Nat :=
  if s = "Low-Value" then 0 else if s = "Mid-Value" then 1 else 2

/-- One output row: original fields plus all derived columns at position i. -/
def buildRow (now : Int) (t : List Row) (vs : List String) (i : Nat) : OutRow :=
  let m := (mergedTable t).getD i default
  { customerID := m.1.1.customerID
    purchaseDate := m.1.1.purchaseDate
    orderID := m.1.1.orderID
    transactionAmount := m.1.1.transactionAmount
    recency := now - m.1.1.purchaseDate
    frequency := m.1.2.getD 0
    monetary := m.2.getD 0
    recencyScore := (recencyScores now t).getD i 0
    frequencyScore := (frequencyScores t).getD i 0
    monetaryScore := (monetaryScores t).getD i 0
    rfmScore := (rfmScoreColumn now t).getD i 0
    valueSegment := vs.getD i ""
    segment := assignSegments ((rfmScoreColumn now t).getD i 0) }

/-- The whole scoring pipeline on a parsed table, given the evaluation
instant: none when the uncaught Value Segment binning raises. -/
def rfmPipeline (now : Int) (t : List Row) : Option (List OutRow) :=
  match valueSegments now t with
  | Except.error _ => none
  | Except.ok vs =>
    some ((List.range (mergedTable t).length).map (buildRow now t vs))

/-- Example table shown by the app itself, dates as day numbers of 2023
counted from January 1 = day 0. -/
def example_data : List Row :=
  [⟨"C001", 129, some "O001", 603 / 4⟩,
   ⟨"C002", 165, some "O002", 200⟩,
   ⟨"C001", 181, some "O003", 350⟩,
   ⟨"C003", 114, some "O004", 251 / 2⟩,
   ⟨"C002", 139, some "O005", 180⟩,
   ⟨"C004", 88, some "O006", 551 / 2⟩,
   ⟨"C001", 195, some "O007", 120⟩,
   ⟨"C003", 221, some "O008", 300⟩,
   ⟨"C005", 243, some "O009", 95⟩]

/-- Table on which the Recency binning raises inside create_rfm_score and
the later Value Segment binning raises outside any handler: six customers
with one transaction each, recencies 0, 0, 1, 2, 3, 4 at instant 4, equal
amounts. -/
def crashTable : List Row :=
  [⟨"a", 4, some "o1", 100⟩,
   ⟨"b", 4, some "o2", 100⟩,
   ⟨"c", 3, some "o3", 100⟩,
   ⟨"d", 2, some "o4", 100⟩,
   ⟨"e", 1, some "o5", 100⟩,
   ⟨"f", 0, some "o6", 100⟩]

/-- Table of nine single-transaction customers with recencies 1..9 at
instant 10 and equal amounts. -/
def skewTable : List Row :=
  [⟨"c1", 9, some "o1", 100⟩,
   ⟨"c2", 8, some "o2", 100⟩,
   ⟨"c3", 7, some "o3", 100⟩,
   ⟨"c4", 6, some "o4", 100⟩,
   ⟨"c5", 5, some "o5", 100⟩,
   ⟨"c6", 4, some "o6", 100⟩,
   ⟨"c7", 3, some "o7", 100⟩,
   ⟨"c8", 2, some "o8", 100⟩,
   ⟨"c9", 1, some "o9", 100⟩]

/-- Variant of the nine-customer table where the first row has a missing
OrderID value. -/
def missingOrderTable : List Row :=
  [⟨"c1", 9, none, 100⟩,
   ⟨"c2", 8, some "o2", 100⟩,
   ⟨"c3", 7, some "o3", 100⟩,
   ⟨"c4", 6, some "o4", 100⟩,
   ⟨"c5", 5, some "o5", 100⟩,
   ⟨"c6", 4, some "o6", 100⟩,
   ⟨"c7", 3, some "o7", 100⟩,
   ⟨"c8", 2, some "o8", 100⟩,
   ⟨"c9", 1, some "o9", 100⟩]

/-- Ten-row table where customer c1 has two transactions that share one
OrderID value. -/
def dupOrderTable : List Row :=
  [⟨"c1", 9, some "o1", 100⟩,
   ⟨"c1", 0, some "o1", 100⟩,
   ⟨"c2", 8, some "o2", 100⟩,
   ⟨"c3", 7, some "o3", 100⟩,
   ⟨"c4", 6, some "o4", 100⟩,
   ⟨"c5", 5, some "o5", 100⟩,
   ⟨"c6", 4, some "o6", 100⟩,
   ⟨"c7", 3, some "o7", 100⟩,
   ⟨"c8", 2, some "o8", 100⟩,
   ⟨"c9", 1, some "o9", 100⟩]

/-- Table on which the Frequency binning raises: five customers owning
1, 2, 3, 4 and 5 rows each, so the per-row frequency series has five
distinct values but duplicated quantile edges. -/
def freqCrashTable : List Row :=
  [⟨"f1", 0, some "p01", 100⟩,
   ⟨"f2", 0, some "p02", 100⟩,
   ⟨"f2", 0, some "p03", 100⟩,
   ⟨"f3", 0, some "p04", 100⟩,
   ⟨"f3", 0, some "p05", 100⟩,
   ⟨"f3", 0, some "p06", 100⟩,
   ⟨"f4", 0, some "p07", 100⟩,
   ⟨"f4", 0, some "p08", 100⟩,
   ⟨"f4", 0, some "p09", 100⟩,
   ⟨"f4", 0, some "p10", 100⟩,
   ⟨"f5", 0, some "p11", 100⟩,
   ⟨"f5", 0, some "p12", 100⟩,
   ⟨"f5", 0, some "p13", 100⟩,
   ⟨"f5", 0, some "p14", 100⟩,
   ⟨"f5", 0, some "p15", 100⟩]

/-- Table on which the Monetary binning raises: twelve single-row
customers whose amounts are 1 eight times and then 2, 3, 4, 5, so the
monetary series has five distinct values but duplicated quantile edges. -/
def monCrashTable : List Row :=
  [⟨"g1", 0, some "q01", 1⟩,
   ⟨"g2", 0, some "q02", 1⟩,
   ⟨"g3", 0, some "q03", 1⟩,
   ⟨"g4", 0, some "q04", 1⟩,
   ⟨"g5", 0, some "q05", 1⟩,
   ⟨"g6", 0, some "q06", 1⟩,
   ⟨"g7", 0, some "q07", 1⟩,
   ⟨"g8", 0, some "q08", 1⟩,
   ⟨"g9", 0, some "q09", 2⟩,
   ⟨"g10", 0, some "q10", 3⟩,
   ⟨"g11", 0, some "q11", 4⟩,
   ⟨"g12", 0, some "q12", 5⟩]

/-! Helper lemmas about lists, buckets and sorting. -/

theorem getD_of_lt {α : Type} (l : List α) (i : Nat) (d : α) (h : i < l.length) :
    l.getD i d = l[i] := by
  simp [List.getD_eq_getElem?_getD, List.getElem?_eq_getElem h]

theorem mem_getD {α : Type} (l : List α) (i : Nat) (d : α) (h : i < l.length) :
    l.getD i d ∈ l := by
  rw [getD_of_lt l i d h]
  exact List.getElem_mem h

theorem getD_map_range {α : Type} (f : Nat → α) {n i : Nat} (d : α) (h : i < n) :
    ((List.range n).map f).getD i d = f i := by
  have hlen : i < ((List.range n).map f).length := by simpa using h
  rw [getD_of_lt _ i d hlen]
  simp

theorem getD_replicate {α : Type} {n i : Nat} (a d : α) (h : i < n) :
    (List.replicate n a).getD i d = a := by
  have hlen : i < (List.replicate n a).length := by simpa using h
  rw [getD_of_lt _ i d hlen]
  simp

theorem tail_range_map {α : Type} (f : Nat → α) (n : Nat) :
    ((List.range (n + 1)).map f).tail = (List.range n).map (fun i => f (i + 1)) := by
  rw [List.range_succ_eq_map]
  simp [List.map_map]

theorem bucketAux_mono (es : List Rat) {v w : Rat} (hvw : v ≤ w) :
    bucketAux es v ≤ bucketAux es w := by
  induction es with
  | nil => simp [bucketAux]
  | cons e rest ih =>
    by_cases hw : w ≤ e
    · have hv : v ≤ e := le_trans hvw hw
      simp [bucketAux, hv, hw]
    · by_cases hv : v ≤ e
      · simp [bucketAux, hv, hw]
      · simp only [bucketAux, if_neg hv, if_neg hw]
        omega

theorem bucketAux_lt {es : List Rat} {v : Rat} (h : ∃ e ∈ es, v ≤ e) :
    bucketAux es v < es.length := by
  induction es with
  | nil => simp at h
  | cons e rest ih =>
    by_cases hv : v ≤ e
    · simp [bucketAux, hv]
    · obtain ⟨e', he', hve'⟩ := h
      rcases List.mem_cons.mp he' with rfl | hmem
      · exact absurd hve' hv
      · have := ih ⟨e', hmem, hve'⟩
        simp [bucketAux, hv]
        omega

theorem le_listMax (l : List Rat) : ∀ x ∈ l, x ≤ listMax l := by
  induction l with
  | nil => simp
  | cons a t ih =>
    intro x hx
    rcases List.mem_cons.mp hx with rfl | hmem
    · cases t with
      | nil => simp [listMax]
      | cons b r => simp [listMax]
    · cases t with
      | nil => simp at hmem
      | cons b r =>
        calc x ≤ listMax (b :: r) := ih x hmem
          _ ≤ listMax (a :: b :: r) := by simp [listMax]

theorem sorted_le_getD_last (l : List Rat) (hl : l.Sorted (· ≤ ·)) :
    ∀ x ∈ l, x ≤ l.getD (l.length - 1) 0 := by
  induction l with
  | nil => simp
  | cons a t ih =>
    intro x hx
    cases t with
    | nil =>
      rcases List.mem_cons.mp hx with rfl | hmem
      · simp
      · simp at hmem
    | cons b r =>
      have hlast : (a :: b :: r).getD ((a :: b :: r).length - 1) 0 =
          (b :: r).getD ((b :: r).length - 1) 0 := by
        have : (a :: b :: r).length - 1 = ((b :: r).length - 1) + 1 := by
          simp
        rw [this, List.getD_cons_succ]
      rw [hlast]
      have hs' : (b :: r).Sorted (· ≤ ·) := (List.sorted_cons.mp hl).2
      rcases List.mem_cons.mp hx with rfl | hmem
      · have hmemlast : (b :: r).getD ((b :: r).length - 1) 0 ∈ (b :: r) :=
          mem_getD _ _ _ (by simp)
        exact (List.sorted_cons.mp hl).1 _ hmemlast
      · exact ih hs' x hmem

theorem le_sortQ_last {s : List Rat} {x : Rat} (hx : x ∈ s) :
    x ≤ (sortQ s).getD ((sortQ s).length - 1) 0 := by
  have hmem : x ∈ sortQ s := by
    unfold sortQ
    exact (List.mem_insertionSort (· ≤ ·)).mpr hx
  exact sorted_le_getD_last _ (List.sorted_insertionSort (· ≤ ·) s) x hmem

/-! Quantile and bucket facts. -/

theorem quantileAt_last (st : List Rat) (q : Nat) (hq : 0 < q) :
    quantileAt st q q = st.getD (st.length - 1) 0 := by
  simp only [quantileAt]
  rw [Nat.mul_div_cancel_left _ hq]
  generalize st.length - 1 = m
  have hq' : (q : Rat) ≠ 0 := Nat.cast_ne_zero.mpr (by omega)
  have hfac : ((q * m : Nat) : Rat) / (q : Rat) - (m : Rat) = 0 := by
    push_cast
    field_simp
  rw [hfac, zero_mul, add_zero]

theorem length_tail_qcutEdges (s : List Rat) (q : Nat) :
    (qcutEdges s q).tail.length = q := by
  simp [qcutEdges]

theorem qcut_bucket_lt {s : List Rat} {v : Rat} {q : Nat} (hq : 0 < q)
    (hv : v ∈ s) : bucketAux (qcutEdges s q).tail v < q := by
  have hlast : quantileAt (sortQ s) q q ∈ (qcutEdges s q).tail := by
    unfold qcutEdges
    rw [tail_range_map]
    exact List.mem_map.mpr
      ⟨q - 1, List.mem_range.mpr (by omega), by rw [Nat.sub_add_cancel hq]⟩
  have hle : v ≤ quantileAt (sortQ s) q q := by
    rw [quantileAt_last _ _ hq]
    exact le_sortQ_last hv
  have := bucketAux_lt ⟨_, hlast, hle⟩
  rwa [length_tail_qcutEdges] at this

theorem length_tail_cutEdges (s : List Rat) (n : Nat) :
    (cutEdges s n).tail.length = n := by
  simp only [cutEdges]
  by_cases h : listMin s = listMax s
  · simp only [if_pos h, List.length_tail, List.length_map, List.length_range]
    omega
  · simp only [if_neg h, List.length_tail, List.length_map, List.length_range]
    omega

theorem cut_bucket_lt {s : List Rat} {v : Rat} {n : Nat} (hn : 0 < n)
    (hv : v ∈ s) : bucketAux (cutEdges s n).tail v < n := by
  have hn' : (n : Rat) ≠ 0 := Nat.cast_ne_zero.mpr (by omega)
  have hvmax : v ≤ listMax s := le_listMax s v hv
  have hmem : ∃ e ∈ (cutEdges s n).tail, v ≤ e := by
    simp only [cutEdges]
    by_cases h : listMin s = listMax s
    · simp only [if_pos h, tail_range_map]
      refine ⟨_, List.mem_map.mpr ⟨n - 1, List.mem_range.mpr (by omega), rfl⟩, ?_⟩
      rw [Nat.sub_add_cancel hn]
      set c1 : Rat := if listMin s = 0 then (1 : Rat) / 1000 else |listMin s| / 1000
        with hc1def
      set c2 : Rat := if listMax s = 0 then (1 : Rat) / 1000 else |listMax s| / 1000
        with hc2def
      have hc2 : (0 : Rat) ≤ c2 := by
        rw [hc2def]
        split
        · norm_num
        · positivity
      have hcan : (listMax s + c2 - (listMin s - c1)) * (n : Rat) / (n : Rat) =
          listMax s + c2 - (listMin s - c1) := mul_div_cancel_right₀ _ hn'
      rw [hcan]
      linarith
    · simp only [if_neg h, tail_range_map]
      refine ⟨_, List.mem_map.mpr ⟨n - 1, List.mem_range.mpr (by omega), rfl⟩, ?_⟩
      rw [Nat.sub_add_cancel hn]
      rw [if_neg (show ¬n = 0 by omega)]
      have hcan : (listMax s - listMin s) * (n : Rat) / (n : Rat) =
          listMax s - listMin s := mul_div_cancel_right₀ _ hn'
      rw [hcan]
      linarith
  have := bucketAux_lt hmem
  rwa [length_tail_cutEdges] at this

/-! Equation lemmas for the binning wrappers. -/

theorem qcutList_ok {α : Type} {s : List Rat} {q : Nat} {labels : List α}
    {d : α} {vs : List α} (h : qcutList s q labels d = Except.ok vs) :
    vs = s.map (fun v => labels.getD (bucketAux (qcutEdges s q).tail v) d) := by
  simp only [qcutList] at h
  split_ifs at h with h1 h2
  · injection h with h
    exact h.symm

theorem cutList_eq_ok {α : Type} (s : List Rat) (n : Nat) (labels : List α)
    (d : α) (hne : s ≠ []) (hn : n ≠ 0) :
    cutList s n labels d =
      Except.ok (s.map (fun v => labels.getD (bucketAux (cutEdges s n).tail v) d)) := by
  simp [cutList, hne, hn]

/-! Merge lemmas. -/

theorem filter_keyed_nil {β : Type} (ks : List String) (g : String → β)
    (k : String) (hk : k ∉ ks) :
    (ks.map (fun c => (c, g c))).filter (fun p => p.1 == k) = [] := by
  induction ks with
  | nil => rfl
  | cons c rest ih =>
    have hck : (((c, g c) : String × β).1 == k) = false := by
      simp only [beq_eq_false_iff_ne, ne_eq]
      intro h
      exact hk (h ▸ List.mem_cons_self c rest)
    simp only [List.map_cons, List.filter_cons, hck, Bool.false_eq_true, if_false]
    exact ih (fun hmem => hk (List.mem_cons_of_mem _ hmem))

theorem filter_keyed {β : Type} (ks : List String) (g : String → β) (k : String)
    (hnd : ks.Nodup) (hk : k ∈ ks) :
    (ks.map (fun c => (c, g c))).filter (fun p => p.1 == k) = [(k, g k)] := by
  induction ks with
  | nil => simp at hk
  | cons c rest ih =>
    rcases List.mem_cons.mp hk with rfl | hmem
    · have hknot : k ∉ rest := (List.nodup_cons.mp hnd).1
      have hbeq : (((k, g k) : String × β).1 == k) = true := by simp
      simp only [List.map_cons, List.filter_cons, hbeq, if_true]
      rw [filter_keyed_nil rest g k hknot]
    · have hck : (((c, g c) : String × β).1 == k) = false := by
        have hne : c ≠ k := fun h => (List.nodup_cons.mp hnd).1 (h ▸ hmem)
        simp [hne]
      simp only [List.map_cons, List.filter_cons, hck, Bool.false_eq_true, if_false]
      exact ih (List.nodup_cons.mp hnd).2 hmem

theorem leftMerge_eq_map {α β : Type} (left : List α) (key : α → String)
    (right : List (String × β)) (g : String → β)
    (h : ∀ l ∈ left, right.filter (fun p => p.1 == key l) = [(key l, g (key l))]) :
    leftMerge left key right = left.map (fun l => (l, some (g (key l)))) := by
  induction left with
  | nil => rfl
  | cons a rest ih =>
    have ha := h a (List.mem_cons_self a rest)
    simp only [leftMerge, ha, List.map_cons, List.map_cons, List.singleton_append]
    rw [ih (fun l hl => h l (List.mem_cons_of_mem a hl))]
    rfl

theorem mergedTable_eq (t : List Row) :
    mergedTable t = t.map (fun r =>
      ((r, some (frequencyCount t r.customerID)),
        some (monetarySum t r.customerID))) := by
  have h1 : leftMerge t (fun r => r.customerID) (frequency_data t) =
      t.map (fun r => (r, some (frequencyCount t r.customerID))) := by
    apply leftMerge_eq_map
    intro l hl
    exact filter_keyed (customerKeys t) (frequencyCount t) l.customerID
      (List.nodup_dedup _) (List.mem_dedup.mpr (List.mem_map_of_mem _ hl))
  have h2 : leftMerge (t.map (fun r => (r, some (frequencyCount t r.customerID))))
      (fun p => p.1.customerID) (monetary_data t) =
      (t.map (fun r => (r, some (frequencyCount t r.customerID)))).map
        (fun p => (p, some (monetarySum t p.1.customerID))) := by
    apply leftMerge_eq_map
    intro l hl
    obtain ⟨r, hr, rfl⟩ := List.mem_map.mp hl
    exact filter_keyed (customerKeys t) (monetarySum t) r.customerID
      (List.nodup_dedup _) (List.mem_dedup.mpr (List.mem_map_of_mem _ hr))
  unfold mergedTable
  rw [h1, h2, List.map_map]
  rfl

theorem length_mergedTable (t : List Row) :
    (mergedTable t).length = t.length := by
  rw [mergedTable_eq]
  simp

/-! Pipeline structure lemmas. -/

theorem rfmPipeline_some {now : Int} {t : List Row} {out : List OutRow}
    (h : rfmPipeline now t = some out) :
    ∃ vs, valueSegments now t = Except.ok vs ∧
      out = (List.range (mergedTable t).length).map (buildRow now t vs) := by
  unfold rfmPipeline at h
  cases hv : valueSegments now t with
  | error e => rw [hv] at h; simp at h
  | ok vs =>
    rw [hv] at h
    simp only [Option.some.injEq] at h
    exact ⟨vs, rfl, h.symm⟩

theorem length_rfmScoreColumn (now : Int) (t : List Row) :
    (rfmScoreColumn now t).length = (mergedTable t).length := by
  simp [rfmScoreColumn]

theorem assignSegments_eq_segmentBands (s : Nat) :
    assignSegments s = segmentBands s := by
  simp only [assignSegments, segmentBands]
  split_ifs <;> first | rfl | omega

theorem out_mem {now : Int} {t : List Row} {out : List OutRow}
    (h : rfmPipeline now t = some out) {r : OutRow} (hr : r ∈ out) :
    ∃ vs i, valueSegments now t = Except.ok vs ∧ i < (mergedTable t).length ∧
      r = buildRow now t vs i := by
  obtain ⟨vs, hvs, rfl⟩ := rfmPipeline_some h
  obtain ⟨i, hi, rfl⟩ := List.mem_map.mp hr
  exact ⟨vs, i, hvs, List.mem_range.mp hi, rfl⟩

theorem buildRow_freq_mon (now : Int) (t : List Row) (vs : List String) (i : Nat)
    (hi : i < (mergedTable t).length) :
    (buildRow now t vs i).frequency =
        frequencyCount t (buildRow now t vs i).customerID ∧
      (buildRow now t vs i).monetary =
        monetarySum t (buildRow now t vs i).customerID := by
  have hit : i < t.length := by rw [← length_mergedTable t]; exact hi
  have hm : (mergedTable t).getD i default =
      ((t[i], some (frequencyCount t (t[i]).customerID)),
        some (monetarySum t (t[i]).customerID)) := by
    rw [mergedTable_eq, getD_of_lt _ i _ (by simpa using hit), List.getElem_map]
  constructor
  · simp only [buildRow]
    rw [hm]
    rfl
  · simp only [buildRow]
    rw [hm]
    rfl

/-! Claim theorems. -/

/-- Claim C3: on every output row the RFM Customer Segments label is the
pure function of the rows RFM_Score given by the fixed band table: at
least 9 gives Champions, 6 to 8 gives Potential Loyalists, 5 gives At
Risk Customers, 4 gives Cant Lose, below 4 gives Lost. -/
theorem claim3_segment_band :
    ∀ (now : Int) (t : List Row) (out : List OutRow),
      rfmPipeline now t = some out →
      ∀ r ∈ out, r.segment = segmentBands r.rfmScore := by
  intro now t out h r hr
  obtain ⟨vs, i, hvs, hi, rfl⟩ := out_mem h hr
  have hseg : (buildRow now t vs i).segment =
      assignSegments ((buildRow now t vs i).rfmScore) := by
    simp only [buildRow]
  rw [hseg, assignSegments_eq_segmentBands]

/-- Witness for claim C3 on the nine-customer table. -/
theorem claim3_witness :
    (((rfmPipeline 10 skewTable).getD []).getD 0 default).segment =
      segmentBands ((((rfmPipeline 10 skewTable).getD []).getD 0 default).rfmScore) :=
  claim3_segment_band 10 skewTable ((rfmPipeline 10 skewTable).getD [])
    (by with_unfolding_all rfl)
    (((rfmPipeline 10 skewTable).getD []).getD 0 default)
    (mem_getD _ 0 default (by with_unfolding_all exact of_decide_eq_true rfl))

/-- Claim C4: whenever the pipeline produces an output table, it has
exactly as many rows as the input table; in particular the merge stage
preserves the row count. -/
theorem claim4_row_count :
    ∀ (now : Int) (t : List Row),
      (mergedTable t).length = t.length ∧
      ∀ out, rfmPipeline now t = some out → out.length = t.length := by
  intro now t
  refine ⟨length_mergedTable t, ?_⟩
  intro out h
  obtain ⟨vs, hvs, rfl⟩ := rfmPipeline_some h
  simp [length_mergedTable]

/-- Witness for claim C4 on the nine-customer table. -/
theorem claim4_witness :
    (mergedTable skewTable).length = skewTable.length ∧
      ((rfmPipeline 10 skewTable).getD []).length = skewTable.length :=
  ⟨(claim4_row_count 10 skewTable).1,
    (claim4_row_count 10 skewTable).2 ((rfmPipeline 10 skewTable).getD [])
      (by with_unfolding_all rfl)⟩

/-- Claim C6: on every output row RFM_Score is the sum of the three
component scores, and when each component lies between 1 and 5 the sum
lies between 3 and 15. -/
theorem claim6_rfm_sum :
    ∀ (now : Int) (t : List Row) (out : List OutRow),
      rfmPipeline now t = some out → ∀ r ∈ out,
        r.rfmScore = r.recencyScore + r.frequencyScore + r.monetaryScore ∧
        ((1 ≤ r.recencyScore ∧ r.recencyScore ≤ 5 ∧ 1 ≤ r.frequencyScore ∧
            r.frequencyScore ≤ 5 ∧ 1 ≤ r.monetaryScore ∧ r.monetaryScore ≤ 5) →
          3 ≤ r.rfmScore ∧ r.rfmScore ≤ 15) := by
  intro now t out h r hr
  obtain ⟨vs, i, hvs, hi, rfl⟩ := out_mem h hr
  have hsum : (buildRow now t vs i).rfmScore =
      (buildRow now t vs i).recencyScore + (buildRow now t vs i).frequencyScore +
        (buildRow now t vs i).monetaryScore := by
    simp only [buildRow, rfmScoreColumn]
    rw [getD_map_range _ _ hi]
  refine ⟨hsum, fun hb => ?_⟩
  rw [hsum]
  omega

/-- Witness for claim C6 on the nine-customer table, whose first row has
component scores 5, 1, 1 and RFM_Score 7. -/
theorem claim6_witness :
    (((rfmPipeline 10 skewTable).getD []).getD 0 default).rfmScore =
        (((rfmPipeline 10 skewTable).getD []).getD 0 default).recencyScore +
        (((rfmPipeline 10 skewTable).getD []).getD 0 default).frequencyScore +
        (((rfmPipeline 10 skewTable).getD []).getD 0 default).monetaryScore ∧
      3 ≤ (((rfmPipeline 10 skewTable).getD []).getD 0 default).rfmScore ∧
      (((rfmPipeline 10 skewTable).getD []).getD 0 default).rfmScore ≤ 15 := by
  have h := claim6_rfm_sum 10 skewTable ((rfmPipeline 10 skewTable).getD [])
    (by with_unfolding_all rfl)
    (((rfmPipeline 10 skewTable).getD []).getD 0 default)
    (mem_getD _ 0 default (by with_unfolding_all exact of_decide_eq_true rfl))
  exact ⟨h.1, h.2 (by with_unfolding_all exact of_decide_eq_true rfl)⟩

/-- Claim C9: the pipeline is deterministic given the evaluation instant:
two runs on the same table at the same instant produce identical results,
hence identical derived columns. -/
theorem claim9_deterministic :
    ∀ (now : Int) (t : List Row) (o1 o2 : Option (List OutRow)),
      rfmPipeline now t = o1 → rfmPipeline now t = o2 → o1 = o2 := by
  intro now t o1 o2 h1 h2
  rw [← h1, ← h2]

/-- Witness for claim C9 on the crashing table. -/
theorem claim9_witness : rfmPipeline 4 crashTable = rfmPipeline 4 crashTable :=
  claim9_deterministic 4 crashTable (rfmPipeline 4 crashTable)
    (rfmPipeline 4 crashTable) rfl rfl

/-- Claim C10: after the sequential threshold assignments every output row
carries one of the five segment labels; no row keeps the empty string the
column is initialized with. -/
theorem claim10_segment_total :
    ∀ (now : Int) (t : List Row) (out : List OutRow),
      rfmPipeline now t = some out → ∀ r ∈ out,
        r.segment = "Champions" ∨ r.segment = "Potential Loyalists" ∨
        r.segment = "At Risk Customers" ∨ r.segment = "Can\x27t Lose" ∨
        r.segment = "Lost" := by
  intro now t out h r hr
  obtain ⟨vs, i, hvs, hi, rfl⟩ := out_mem h hr
  have hseg : (buildRow now t vs i).segment =
      segmentBands ((rfmScoreColumn now t).getD i 0) := by
    simp only [buildRow]
    rw [assignSegments_eq_segmentBands]
  rw [hseg]
  unfold segmentBands
  split_ifs <;> simp

/-- Witness for claim C10 on the nine-customer table. -/
theorem claim10_witness :
    (((rfmPipeline 10 skewTable).getD []).getD 1 default).segment = "Champions" ∨
    (((rfmPipeline 10 skewTable).getD []).getD 1 default).segment = "Potential Loyalists" ∨
    (((rfmPipeline 10 skewTable).getD []).getD 1 default).segment = "At Risk Customers" ∨
    (((rfmPipeline 10 skewTable).getD []).getD 1 default).segment = "Can\x27t Lose" ∨
    (((rfmPipeline 10 skewTable).getD []).getD 1 default).segment = "Lost" :=
  claim10_segment_total 10 skewTable ((rfmPipeline 10 skewTable).getD [])
    (by with_unfolding_all rfl)
    (((rfmPipeline 10 skewTable).getD []).getD 1 default)
    (mem_getD _ 1 default (by with_unfolding_all exact of_decide_eq_true rfl))

/-- Counterexample for claim C1: in a table whose first row has a missing
OrderID value, the pipeline succeeds and the first output row carries
Frequency 0 although its customer owns one row, because the pandas count
aggregation skips missing values. -/
theorem claim1_counterexample :
    (rfmPipeline 10 missingOrderTable).isSome = true ∧
    (((rfmPipeline 10 missingOrderTable).getD []).getD 0 default).customerID = "c1" ∧
    (((rfmPipeline 10 missingOrderTable).getD []).getD 0 default).frequency = 0 ∧
    (missingOrderTable.filter (fun r => r.customerID == "c1")).length = 1 :=
  ⟨by with_unfolding_all rfl, by with_unfolding_all rfl, by with_unfolding_all rfl,
    by with_unfolding_all rfl⟩

/-- Claim C1 amended: on every output row Frequency equals the number of
rows of that customer that carry a non-missing OrderID value, and
MonetaryValue equals the sum of the TransactionAmount values of that
customer; both are reproduced identically on every row of the customer. -/
theorem claim1_amended :
    ∀ (now : Int) (t : List Row) (out : List OutRow),
      rfmPipeline now t = some out →
      (∀ r ∈ out, r.frequency = frequencyCount t r.customerID ∧
        r.monetary = monetarySum t r.customerID) ∧
      (∀ r1 ∈ out, ∀ r2 ∈ out, r1.customerID = r2.customerID →
        r1.frequency = r2.frequency ∧ r1.monetary = r2.monetary) := by
  intro now t out h
  have hmain : ∀ r ∈ out, r.frequency = frequencyCount t r.customerID ∧
      r.monetary = monetarySum t r.customerID := by
    intro r hr
    obtain ⟨vs, i, hvs, hi, rfl⟩ := out_mem h hr
    exact buildRow_freq_mon now t vs i hi
  refine ⟨hmain, ?_⟩
  intro r1 h1 r2 h2 hc
  have e1 := hmain r1 h1
  have e2 := hmain r2 h2
  rw [e1.1, e1.2, e2.1, e2.2, hc]
  exact ⟨rfl, rfl⟩

/-- Witness for claim C1 amended on the duplicated-order table. -/
theorem claim1_witness :
    (((rfmPipeline 10 dupOrderTable).getD []).getD 0 default).frequency =
      frequencyCount dupOrderTable
        ((((rfmPipeline 10 dupOrderTable).getD []).getD 0 default).customerID) ∧
    (((rfmPipeline 10 dupOrderTable).getD []).getD 0 default).monetary =
      monetarySum dupOrderTable
        ((((rfmPipeline 10 dupOrderTable).getD []).getD 0 default).customerID) :=
  (claim1_amended 10 dupOrderTable ((rfmPipeline 10 dupOrderTable).getD [])
    (by with_unfolding_all rfl)).1
    (((rfmPipeline 10 dupOrderTable).getD []).getD 0 default)
    (mem_getD _ 0 default (by with_unfolding_all exact of_decide_eq_true rfl))

/-- Counterexample for claim C2: on the six-customer table the Recency
binning raises inside create_rfm_score, and the whole pipeline then
aborts at the unguarded Value Segment binning, so the later derived
columns are never computed. -/
theorem claim2_counterexample :
    isErr (scoreExcept (recencyColumn 4 crashTable) [5, 4, 3, 2, 1]) = true ∧
      rfmPipeline 4 crashTable = none :=
  ⟨by with_unfolding_all rfl, by with_unfolding_all rfl⟩

theorem create_rfm_score_of_err {s : List Rat} {L : List Nat}
    (h : isErr (scoreExcept s L) = true) :
    create_rfm_score s L = List.replicate s.length 0 := by
  unfold create_rfm_score
  cases hse : scoreExcept s L with
  | ok r =>
    rw [hse] at h
    simp [isErr] at h
  | error e => rfl

/-- Claim C2 amended: when the binning of any one of the three metrics
raises, that metric entire score column is zeros of full length and
RFM_Score is still the pointwise sum in which the other two score
columns are computed normally; but the Value Segment and customer
segment columns are produced exactly when the unguarded tertile binning
of RFM_Score succeeds, which a metric failure can itself prevent. -/
theorem claim2_amended :
    ∀ (now : Int) (t : List Row),
      (isErr (scoreExcept (recencyColumn now t) [5, 4, 3, 2, 1]) = true →
        recencyScores now t = List.replicate (recencyColumn now t).length 0 ∧
        ∀ i, i < (mergedTable t).length →
          (rfmScoreColumn now t).getD i 0 =
            (frequencyScores t).getD i 0 + (monetaryScores t).getD i 0) ∧
      (isErr (scoreExcept (frequencyColumn t) [1, 2, 3, 4, 5]) = true →
        frequencyScores t = List.replicate (frequencyColumn t).length 0 ∧
        ∀ i, i < (mergedTable t).length →
          (rfmScoreColumn now t).getD i 0 =
            (recencyScores now t).getD i 0 + (monetaryScores t).getD i 0) ∧
      (isErr (scoreExcept (monetaryColumn t) [1, 2, 3, 4, 5]) = true →
        monetaryScores t = List.replicate (monetaryColumn t).length 0 ∧
        ∀ i, i < (mergedTable t).length →
          (rfmScoreColumn now t).getD i 0 =
            (recencyScores now t).getD i 0 + (frequencyScores t).getD i 0) ∧
      ((rfmPipeline now t).isSome = true ↔ isErr (valueSegments now t) = false) := by
  intro now t
  refine ⟨?_, ?_, ?_, ?_⟩
  · intro herr
    have hz : recencyScores now t = List.replicate (recencyColumn now t).length 0 :=
      create_rfm_score_of_err herr
    refine ⟨hz, ?_⟩
    intro i hi
    simp only [rfmScoreColumn]
    rw [getD_map_range _ _ hi]
    have hlen : i < (recencyColumn now t).length := by
      have : (recencyColumn now t).length = (mergedTable t).length := by
        simp [recencyColumn]
      omega
    rw [hz, getD_replicate _ _ hlen]
    omega
  · intro herr
    have hz : frequencyScores t = List.replicate (frequencyColumn t).length 0 :=
      create_rfm_score_of_err herr
    refine ⟨hz, ?_⟩
    intro i hi
    simp only [rfmScoreColumn]
    rw [getD_map_range _ _ hi]
    have hlen : i < (frequencyColumn t).length := by
      have : (frequencyColumn t).length = (mergedTable t).length := by
        simp [frequencyColumn]
      omega
    rw [hz, getD_replicate _ _ hlen]
    omega
  · intro herr
    have hz : monetaryScores t = List.replicate (monetaryColumn t).length 0 :=
      create_rfm_score_of_err herr
    refine ⟨hz, ?_⟩
    intro i hi
    simp only [rfmScoreColumn]
    rw [getD_map_range _ _ hi]
    have hlen : i < (monetaryColumn t).length := by
      have : (monetaryColumn t).length = (mergedTable t).length := by
        simp [monetaryColumn]
      omega
    rw [hz, getD_replicate _ _ hlen]
    omega
  · unfold rfmPipeline
    cases hv : valueSegments now t with
    | ok vs => simp [isErr]
    | error e => simp [isErr]

/-- Witness for claim C2 amended, discharging the failure hypothesis of
each of the three metrics on its own concrete table: Recency on the
six-customer table, Frequency on the five-customer table with 1 to 5
rows each, Monetary on the twelve-customer table with tied amounts. -/
theorem claim2_witness :
    recencyScores 4 crashTable = List.replicate (recencyColumn 4 crashTable).length 0 ∧
      frequencyScores freqCrashTable =
        List.replicate (frequencyColumn freqCrashTable).length 0 ∧
      monetaryScores monCrashTable =
        List.replicate (monetaryColumn monCrashTable).length 0 ∧
      ((rfmPipeline 4 crashTable).isSome = true ↔
        isErr (valueSegments 4 crashTable) = false) :=
  ⟨((claim2_amended 4 crashTable).1 (by with_unfolding_all rfl)).1,
    ((claim2_amended 0 freqCrashTable).2.1 (by with_unfolding_all rfl)).1,
    ((claim2_amended 0 monCrashTable).2.2.1 (by with_unfolding_all rfl)).1,
    (claim2_amended 4 crashTable).2.2.2⟩

/-- Counterexample for claim C5: in a table where customer c1 owns two
rows sharing one OrderID value, the pipeline succeeds and the first
output row carries Frequency 2 although the customer has only one
distinct OrderID value: the count aggregation does not deduplicate. -/
theorem claim5_counterexample :
    (rfmPipeline 10 dupOrderTable).isSome = true ∧
    (((rfmPipeline 10 dupOrderTable).getD []).getD 0 default).customerID = "c1" ∧
    (((rfmPipeline 10 dupOrderTable).getD []).getD 0 default).frequency = 2 ∧
    ((dupOrderTable.filter (fun r => r.customerID == "c1")).map
      (fun r => r.orderID)).dedup.length = 1 :=
  ⟨by with_unfolding_all rfl, by with_unfolding_all rfl, by with_unfolding_all rfl,
    by with_unfolding_all rfl⟩

/-- Claim C5 amended: on every output row Frequency equals the number of
rows of that customer whose OrderID is present, duplicates counted and
missing values skipped, rather than the number of distinct OrderID
values. -/
theorem claim5_amended :
    ∀ (now : Int) (t : List Row) (out : List OutRow),
      rfmPipeline now t = some out → ∀ r ∈ out,
        r.frequency = (t.filter (fun x =>
          x.customerID == r.customerID && x.orderID.isSome)).length := by
  intro now t out h r hr
  obtain ⟨vs, i, hvs, hi, rfl⟩ := out_mem h hr
  exact (buildRow_freq_mon now t vs i hi).1

/-- Witness for claim C5 amended on the nine-customer table. -/
theorem claim5_witness :
    (((rfmPipeline 10 skewTable).getD []).getD 0 default).frequency =
      (skewTable.filter (fun x =>
        x.customerID == (((rfmPipeline 10 skewTable).getD []).getD 0 default).customerID
          && x.orderID.isSome)).length :=
  claim5_amended 10 skewTable ((rfmPipeline 10 skewTable).getD [])
    (by with_unfolding_all rfl)
    (((rfmPipeline 10 skewTable).getD []).getD 0 default)
    (mem_getD _ 0 default (by with_unfolding_all exact of_decide_eq_true rfl))

/-- Counterexample for claim C7: the series 0, 1, 10 has three distinct
values, yet the equal-width fallback produces the scores 1, 1, 3 with
only two distinct labels, because the middle bucket is empty. -/
theorem claim7_counterexample :
    (([0, 1, 10] : List Rat).dedup.length = 3) ∧
    create_rfm_score [0, 1, 10] [1, 2, 3, 4, 5] = [1, 1, 3] ∧
    (create_rfm_score [0, 1, 10] [1, 2, 3, 4, 5]).dedup.length = 2 :=
  ⟨by with_unfolding_all rfl, by with_unfolding_all rfl, by with_unfolding_all rfl⟩

/-- Claim C7 amended: for a nonempty series with u distinct values, u
below 5, the scorer falls back to the u equal-width buckets labelled with
the first u labels, every produced score is one of those first u labels,
and the number of distinct produced scores is at most u, though possibly
fewer. -/
theorem claim7_amended :
    ∀ (series : List Rat) (labels : List Nat),
      series ≠ [] → series.dedup.length < 5 → 5 ≤ labels.length →
      create_rfm_score series labels =
        series.map (fun v => (labels.take series.dedup.length).getD
          (bucketAux (cutEdges series series.dedup.length).tail v) 0) ∧
      (∀ x ∈ create_rfm_score series labels, x ∈ labels.take series.dedup.length) ∧
      (create_rfm_score series labels).dedup.length ≤ series.dedup.length := by
  intro series labels hne hu hlen
  have hu0 : series.dedup.length ≠ 0 := by
    intro h0
    exact hne ((List.dedup_eq_nil series).mp (List.length_eq_zero.mp h0))
  have hmin : min 5 series.dedup.length = series.dedup.length := by omega
  have hser : scoreExcept series labels = Except.ok
      (series.map (fun v => (labels.take series.dedup.length).getD
        (bucketAux (cutEdges series series.dedup.length).tail v) 0)) := by
    simp only [scoreExcept, hmin]
    rw [if_pos hu]
    exact cutList_eq_ok series _ _ _ hne hu0
  have hcrs : create_rfm_score series labels =
      series.map (fun v => (labels.take series.dedup.length).getD
        (bucketAux (cutEdges series series.dedup.length).tail v) 0) := by
    unfold create_rfm_score
    rw [hser]
  have hmem : ∀ x ∈ create_rfm_score series labels,
      x ∈ labels.take series.dedup.length := by
    intro x hx
    rw [hcrs] at hx
    obtain ⟨v, hv, rfl⟩ := List.mem_map.mp hx
    have hb : bucketAux (cutEdges series series.dedup.length).tail v <
        series.dedup.length := cut_bucket_lt (by omega) hv
    have hbl : bucketAux (cutEdges series series.dedup.length).tail v <
        (labels.take series.dedup.length).length := by
      rw [List.length_take]
      omega
    exact mem_getD _ _ _ hbl
  refine ⟨hcrs, hmem, ?_⟩
  have hsub : (create_rfm_score series labels).dedup ⊆
      labels.take series.dedup.length := by
    intro x hx
    exact hmem x (List.dedup_subset _ hx)
  have hle := ((List.nodup_dedup (create_rfm_score series labels)).subperm hsub).length_le
  have htk : (labels.take series.dedup.length).length ≤ series.dedup.length := by
    rw [List.length_take]
    omega
  omega

/-- Witness for claim C7 amended on the series 0, 1, 10. -/
theorem claim7_witness :
    (∀ x ∈ create_rfm_score [0, 1, 10] [1, 2, 3, 4, 5],
      x ∈ ([1, 2, 3, 4, 5] : List Nat).take ([0, 1, 10] : List Rat).dedup.length) ∧
    (create_rfm_score [0, 1, 10] [1, 2, 3, 4, 5]).dedup.length ≤
      ([0, 1, 10] : List Rat).dedup.length :=
  ⟨(claim7_amended [0, 1, 10] [1, 2, 3, 4, 5] (by simp)
      (by with_unfolding_all exact of_decide_eq_true rfl) (by simp)).2.1,
    (claim7_amended [0, 1, 10] [1, 2, 3, 4, 5] (by simp)
      (by with_unfolding_all exact of_decide_eq_true rfl) (by simp)).2.2⟩

/-- Counterexample for claim C8: the nine-customer table succeeds and its
tertile Value Segment populations are 4, 3 and 2, not an equal
three-way split of the nine rows. -/
theorem claim8_counterexample :
    (rfmPipeline 10 skewTable).isSome = true ∧
    (((rfmPipeline 10 skewTable).getD []).filter
      (fun r => r.valueSegment == "Low-Value")).length = 4 ∧
    (((rfmPipeline 10 skewTable).getD []).filter
      (fun r => r.valueSegment == "Mid-Value")).length = 3 ∧
    (((rfmPipeline 10 skewTable).getD []).filter
      (fun r => r.valueSegment == "High-Value")).length = 2 :=
  ⟨by with_unfolding_all rfl, by with_unfolding_all rfl, by with_unfolding_all rfl,
    by with_unfolding_all rfl⟩

theorem segRank_label : ∀ b : Nat, b < 3 →
    segRank (["Low-Value", "Mid-Value", "High-Value"].getD b "") = b := by
  decide

theorem valueSegments_fields {now : Int} {t : List Row} {vs : List String}
    (hvs : valueSegments now t = Except.ok vs) (i : Nat)
    (hi : i < (mergedTable t).length) :
    vs.getD i "" = ["Low-Value", "Mid-Value", "High-Value"].getD
      (bucketAux (qcutEdges ((rfmScoreColumn now t).map (fun (k : Nat) => (k : Rat))) 3).tail
        (((rfmScoreColumn now t).getD i 0 : Nat) : Rat)) "" ∧
    bucketAux (qcutEdges ((rfmScoreColumn now t).map (fun (k : Nat) => (k : Rat))) 3).tail
      (((rfmScoreColumn now t).getD i 0 : Nat) : Rat) < 3 := by
  have hq : qcutList ((rfmScoreColumn now t).map (fun (k : Nat) => (k : Rat))) 3
      ["Low-Value", "Mid-Value", "High-Value"] "" = Except.ok vs := hvs
  have hveq := qcutList_ok hq
  have hilen : i < (rfmScoreColumn now t).length := by
    rw [length_rfmScoreColumn]
    exact hi
  have hislen : i < ((rfmScoreColumn now t).map (fun (k : Nat) => (k : Rat))).length := by
    rw [List.length_map]
    exact hilen
  have hsi : ((rfmScoreColumn now t).map (fun (k : Nat) => (k : Rat))).getD i 0 =
      (((rfmScoreColumn now t).getD i 0 : Nat) : Rat) := by
    rw [getD_of_lt _ i _ hislen, List.getElem_map, getD_of_lt _ i _ hilen]
  constructor
  · rw [hveq]
    rw [getD_of_lt _ i _ (by rw [List.length_map]; exact hislen)]
    rw [List.getElem_map]
    rw [← hsi]
    rw [getD_of_lt _ i _ hislen]
  · have hmemi : ((rfmScoreColumn now t).map (fun (k : Nat) => (k : Rat))).getD i 0 ∈
        (rfmScoreColumn now t).map (fun (k : Nat) => (k : Rat)) := mem_getD _ _ _ hislen
    have := qcut_bucket_lt (q := 3) (by norm_num) hmemi
    rwa [hsi] at this

/-- Claim C8 amended: whenever the pipeline succeeds, every output row
carries one of the three Value Segment labels, and the labels are
ascending in RFM_Score: a row with a lower or equal RFM_Score never lands
in a higher bucket; the bucket populations need not be equal because ties
skew the quantile edges. -/
theorem claim8_amended :
    ∀ (now : Int) (t : List Row) (out : List OutRow),
      rfmPipeline now t = some out →
      (∀ r ∈ out, r.valueSegment = "Low-Value" ∨ r.valueSegment = "Mid-Value" ∨
        r.valueSegment = "High-Value") ∧
      (∀ r1 ∈ out, ∀ r2 ∈ out, r1.rfmScore ≤ r2.rfmScore →
        segRank r1.valueSegment ≤ segRank r2.valueSegment) := by
  intro now t out h
  obtain ⟨vs, hvs, rfl⟩ := rfmPipeline_some h
  have hrow : ∀ i, i < (mergedTable t).length →
      (buildRow now t vs i).valueSegment = ["Low-Value", "Mid-Value", "High-Value"].getD
        (bucketAux (qcutEdges ((rfmScoreColumn now t).map (fun (k : Nat) => (k : Rat))) 3).tail
          (((rfmScoreColumn now t).getD i 0 : Nat) : Rat)) "" ∧
      bucketAux (qcutEdges ((rfmScoreColumn now t).map (fun (k : Nat) => (k : Rat))) 3).tail
        (((rfmScoreColumn now t).getD i 0 : Nat) : Rat) < 3 ∧
      (buildRow now t vs i).rfmScore = (rfmScoreColumn now t).getD i 0 := by
    intro i hi
    have hvf := valueSegments_fields hvs i hi
    refine ⟨?_, hvf.2, ?_⟩
    · simp only [buildRow]
      exact hvf.1
    · simp only [buildRow]
  constructor
  · intro r hr
    obtain ⟨i, hi, rfl⟩ := List.mem_map.mp hr
    obtain ⟨hv1, hv2, _⟩ := hrow i (List.mem_range.mp hi)
    rw [hv1]
    have h3 : bucketAux (qcutEdges ((rfmScoreColumn now t).map (fun (k : Nat) => (k : Rat))) 3).tail
        (((rfmScoreColumn now t).getD i 0 : Nat) : Rat) = 0 ∨
        bucketAux (qcutEdges ((rfmScoreColumn now t).map (fun (k : Nat) => (k : Rat))) 3).tail
          (((rfmScoreColumn now t).getD i 0 : Nat) : Rat) = 1 ∨
        bucketAux (qcutEdges ((rfmScoreColumn now t).map (fun (k : Nat) => (k : Rat))) 3).tail
          (((rfmScoreColumn now t).getD i 0 : Nat) : Rat) = 2 := by
      omega
    rcases h3 with h3 | h3 | h3 <;> rw [h3] <;> simp
  · intro r1 h1 r2 h2 hle
    obtain ⟨i, hi, rfl⟩ := List.mem_map.mp h1
    obtain ⟨j, hj, rfl⟩ := List.mem_map.mp h2
    obtain ⟨hv1i, hv2i, hv3i⟩ := hrow i (List.mem_range.mp hi)
    obtain ⟨hv1j, hv2j, hv3j⟩ := hrow j (List.mem_range.mp hj)
    rw [hv3i, hv3j] at hle
    have hcast : (((rfmScoreColumn now t).getD i 0 : Nat) : Rat) ≤
        (((rfmScoreColumn now t).getD j 0 : Nat) : Rat) := by
      exact_mod_cast hle
    have hmono := bucketAux_mono
      (qcutEdges ((rfmScoreColumn now t).map (fun (k : Nat) => (k : Rat))) 3).tail hcast
    rw [hv1i, hv1j, segRank_label _ hv2i, segRank_label _ hv2j]
    exact hmono

/-- Witness for claim C8 amended on the missing-order table. -/
theorem claim8_witness :
    (((rfmPipeline 10 missingOrderTable).getD []).getD 0 default).valueSegment =
        "Low-Value" ∨
      (((rfmPipeline 10 missingOrderTable).getD []).getD 0 default).valueSegment =
        "Mid-Value" ∨
      (((rfmPipeline 10 missingOrderTable).getD []).getD 0 default).valueSegment =
        "High-Value" :=
  (claim8_amended 10 missingOrderTable ((rfmPipeline 10 missingOrderTable).getD [])
    (by with_unfolding_all rfl)).1
    (((rfmPipeline 10 missingOrderTable).getD []).getD 0 default)
    (mem_getD _ 0 default (by with_unfolding_all exact of_decide_eq_true rfl))

end RFM
